import Mathlib

/-!
Shallow embedding of `src/server.py` (a chat client keeping a token-budgeted
conversation window) and proofs about its context-window management.

Conventions of the embedding:
* A history entry (`Entry`) is a list of strings; the source works with Python
  tuples of arbitrary arity and guards every consumer with `len(item) == 2`,
  which we mirror with `item.length == 2` guards.
* The external tokenizer (`tiktoken`, used through `count_tokens`) is an
  opaque oracle; every function that counts tokens takes it as an explicit
  parameter `tc : String → Nat`.
* File storage is a key-value map `Store := String → Option (List Msg)`;
  `json.dump`/`json.load` round-trip a `List Msg` document unchanged, and
  the timestamp-derived fresh filename of `save_conversation` is passed in
  as an explicit parameter.
-/

/-- A history entry.  The source manipulates Python tuples and filters the
malformed ones by `len(item) == 2`; an entry is well-formed when it is a
two-element list `[user_text, assistant_text]`. -/
abbrev Entry := List String

/-- An OpenAI-style `{role, content}` message dictionary. -/
structure Msg where
  role : String
  content : String
deriving DecidableEq

/-- The user profile loaded from `profile.json`
(`name`, `age`, `profession`, `interests`, `memory`). -/
structure Profile where
  name : String
  age : Int
  profession : String
  interests : List String
  memory : List String

/-- The persistence layer: a key-value view of the conversation files. -/
abbrev Store := String → Option (List Msg)

/-- `MAX_TOKENS = 4000` from the configuration constants. -/
def MAX_TOKENS : Nat := 4000

/-- `MAX_HISTORY_ITEMS = 20` from the configuration constants. -/
def MAX_HISTORY_ITEMS : Nat := 20

/-- The user side of an entry (`item[0]` after the `len(item) == 2` guard;
the default is never used on guarded entries). -/
def user_msg (item : Entry) : String := item.getD 0 ""

/-- The assistant side of an entry (`item[1]` after the `len(item) == 2`
guard; the default is never used on guarded entries). -/
def bot_msg (item : Entry) : String := item.getD 1 ""

/-- Token cost of one entry:
`count_tokens(user_msg) + count_tokens(bot_msg)`. -/
def entryCost (tc : String → Nat) (item : Entry) : Nat :=
  tc (user_msg item) + tc (bot_msg item)

/-- Total token cost of a list of entries. -/
def sumCost (tc : String → Nat) (l : List Entry) : Nat :=
  (l.map (entryCost tc)).sum

/-- The well-formed entries of a history, in original relative order
(the `len(item) == 2` filter used throughout the source). -/
def wellFormed (l : List Entry) : List Entry :=
  l.filter (fun item => item.length == 2)

/-- `convert_to_openai_format`: each well-formed `(user, bot)` entry becomes
a `user` message followed by an `assistant` message; malformed entries are
skipped. -/
def convert_to_openai_format : List Entry → List Msg
  | [] => []
  | item :: rest =>
    if item.length == 2 then
      ⟨"user", user_msg item⟩ :: ⟨"assistant", bot_msg item⟩ ::
        convert_to_openai_format rest
    else
      convert_to_openai_format rest

/-- `convert_from_openai_format`: pairs consecutive messages positionally
(`formatted_history[i]["content"]`, `formatted_history[i+1]["content"]` for
even `i`); an unmatched trailing message is skipped because of the
`i + 1 < len(formatted_history)` bound check. -/
def convert_from_openai_format : List Msg → List Entry
  | m1 :: m2 :: rest =>
    [m1.content, m2.content] :: convert_from_openai_format rest
  | _ => []

/-- Writing a document at a key of the store. -/
def store_put (store : Store) (key : String) (doc : List Msg) : Store :=
  fun k => if k = key then some doc else store k

/-- `save_conversation`: when `filename` is falsy (the empty string) a fresh
timestamp-derived name (here the explicit parameter `fresh_name`) is used;
the OpenAI-format document is written whole at that key, which is
returned. -/
def save_conversation (store : Store) (conversation : List Entry)
    (filename : String) (fresh_name : String) : Store × String :=
  let fname := if filename = "" then fresh_name else filename
  (store_put store fname (convert_to_openai_format conversation), fname)

/-- `load_conversation`: reads the document at `filename` and converts it
back; a missing/unreadable key degrades to the empty history. -/
def load_conversation (store : Store) (filename : String) : List Entry :=
  match store filename with
  | some doc => convert_from_openai_format doc
  | none => []

/-- The loop of `trim_conversation`: iterate `reversed(conversation)`
(most recent first), skip malformed entries, stop at the first entry whose
cost would overflow `max_tokens`, otherwise prepend it (`trimmed.insert(0,
item)`) and accumulate its cost. -/
def trim_loop (tc : String → Nat) (max_tokens : Nat) :
    List Entry → Nat → List Entry → List Entry
  | [], _, trimmed => trimmed
  | item :: rest, total_tokens, trimmed =>
    if item.length == 2 then
      let item_tokens := entryCost tc item
      if total_tokens + item_tokens > max_tokens then trimmed
      else trim_loop tc max_tokens rest (total_tokens + item_tokens)
        (item :: trimmed)
    else
      trim_loop tc max_tokens rest total_tokens trimmed

/-- `trim_conversation(conversation, max_tokens)`. -/
def trim_conversation (tc : String → Nat) (conversation : List Entry)
    (max_tokens : Nat) : List Entry :=
  trim_loop tc max_tokens conversation.reverse 0 []

/-- The system-message content of `prepare_api_messages`: the f-string
template filled with the profile fields. -/
def system_content (profile : Profile) : String :=
  "你正在与" ++ profile.name ++ "对话:\n        年龄: " ++
    toString profile.age ++ "\n        职业: " ++ profile.profession ++
    "\n        兴趣: " ++ String.intercalate ", " profile.interests

/-- The history loop of `prepare_api_messages`: iterate the window
oldest-first, skip malformed entries, break when the running total would
exceed `MAX_TOKENS`, otherwise extend `messages` with the `(user,
assistant)` pair and accumulate the cost.  Returns the final `(messages,
tokens_used)`. -/
def pam_loop (tc : String → Nat) :
    List Entry → List Msg → Nat → List Msg × Nat
  | [], messages, tokens_used => (messages, tokens_used)
  | item :: rest, messages, tokens_used =>
    if item.length == 2 then
      let new_tokens := entryCost tc item
      if tokens_used + new_tokens > MAX_TOKENS then (messages, tokens_used)
      else pam_loop tc rest
        (messages ++ [⟨"user", user_msg item⟩, ⟨"assistant", bot_msg item⟩])
        (tokens_used + new_tokens)
    else
      pam_loop tc rest messages tokens_used

/-- `prepare_api_messages(conversation, profile, new_message)`: one system
message, then the budgeted window loop over the last `MAX_HISTORY_ITEMS`
entries (`conversation[-MAX_HISTORY_ITEMS:]`), then the new user message iff
it still fits strictly below `MAX_TOKENS`. -/
def prepare_api_messages (tc : String → Nat) (conversation : List Entry)
    (profile : Profile) (new_message : String) : List Msg :=
  let system_prompt : Msg := ⟨"system", system_content profile⟩
  let r := pam_loop tc
    (conversation.drop (conversation.length - MAX_HISTORY_ITEMS))
    [system_prompt] (tc (system_content profile))
  if tc new_message + r.2 < MAX_TOKENS then
    r.1 ++ [⟨"user", new_message⟩]
  else
    r.1

/-- The entries the `prepare_api_messages` loop includes (same guards and
budget arithmetic as `pam_loop`, recording the entries instead of the
emitted messages; `pam_loop_eq` proves the correspondence). -/
def pam_included (tc : String → Nat) : List Entry → Nat → List Entry
  | [], _ => []
  | item :: rest, tokens_used =>
    if item.length == 2 then
      if tokens_used + entryCost tc item > MAX_TOKENS then []
      else item :: pam_included tc rest (tokens_used + entryCost tc item)
    else
      pam_included tc rest tokens_used

/-- The two messages `prepare_api_messages` emits for one included entry. -/
def turnMsgs (item : Entry) : List Msg :=
  [⟨"user", user_msg item⟩, ⟨"assistant", bot_msg item⟩]

/-- The last-`MAX_HISTORY_ITEMS` window `conversation[-MAX_HISTORY_ITEMS:]`
of `prepare_api_messages`. -/
def pam_window (conversation : List Entry) : List Entry :=
  conversation.drop (conversation.length - MAX_HISTORY_ITEMS)

/-- The history entries included in the prompt built by
`prepare_api_messages`. -/
def included_turns (tc : String → Nat) (conversation : List Entry)
    (profile : Profile) : List Entry :=
  pam_included tc (pam_window conversation) (tc (system_content profile))

/-- The C3 claim text, formalised: among the well-formed entries of the
last-20 window, every omitted turn is older than every included turn,
i.e. the included turns form a contiguous suffix of the well-formed
window. -/
def omitted_older_than_included (tc : String → Nat)
    (conversation : List Entry) (profile : Profile) : Prop :=
  included_turns tc conversation profile <:+ wellFormed (pam_window conversation)

/-- Models `not message.strip()`: the message is empty or whitespace
only. -/
def isBlank (s : String) : Bool :=
  s.toList.all Char.isWhitespace

/-- The streaming loop of `respond`: for each delivered chunk, extend the
accumulated assistant text and yield the snapshot
`trimmed_history + [(message, bot_message)]` together with the (unchanged)
current file. -/
def stream_yields_loop (message : String) (trimmed_history : List Entry)
    (current_file : String) (bot_message : String) :
    List String → List (List Entry × String)
  | [] => []
  | chunk :: rest =>
    (trimmed_history ++ [[message, bot_message ++ chunk]], current_file) ::
      stream_yields_loop message trimmed_history current_file
        (bot_message ++ chunk) rest

/-- The observable outcome of one `respond` call: the yielded
`(history, current_file)` snapshots, the final store, and whether the
streaming phase (the completion call) was reached. -/
structure RespondResult where
  yields : List (List Entry × String)
  store : Store
  network_called : Bool

/-- `respond(message, chat_history, profile, current_file)`.  Effects are
made explicit: `recent_chats` is the outcome of
`load_recent_conversations()` (`Except.error e` models an exception raised
in the merging phase), `chunks` are the fragments the completion stream
delivers, `stream_error` models an exception raised during the streaming
phase after those fragments, and `fresh_name` is the timestamp-derived
filename `save_conversation` would mint.  The `except` branch of the source
yields `chat_history + [(message, "发生错误: " + e)]` with the session key
unchanged. -/
def respond (tc : String → Nat) (message : String)
    (chat_history : List Entry) (current_file : String) (store : Store)
    (recent_chats : Except String (List Entry)) (chunks : List String)
    (stream_error : Option String) (fresh_name : String) : RespondResult :=
  if isBlank message then
    ⟨[(chat_history, current_file)], store, false⟩
  else
    match recent_chats with
    | Except.error e =>
      ⟨[(chat_history ++ [[message, "发生错误: " ++ e]], current_file)],
        store, false⟩
    | Except.ok recent =>
      let combined_history := recent ++ chat_history
      let cleaned_history :=
        combined_history.filter (fun item => item.length == 2)
      let trimmed_history :=
        trim_conversation tc cleaned_history (MAX_TOKENS / 2)
      match stream_error with
      | some e =>
        ⟨stream_yields_loop message trimmed_history current_file "" chunks ++
          [(chat_history ++ [[message, "发生错误: " ++ e]], current_file)],
          store, true⟩
      | none =>
        let bot_message := chunks.foldl (fun a c => a ++ c) ""
        let full_conversation := trimmed_history ++ [[message, bot_message]]
        let sv :=
          save_conversation store full_conversation current_file fresh_name
        ⟨stream_yields_loop message trimmed_history current_file "" chunks ++
          [(full_conversation, sv.2)], sv.1, true⟩

/-- Token oracle used in concrete counterexamples: the marker string is
expensive, everything else costs one token. -/
def tcCex : String → Nat := fun s => if s = "big" then 9000 else 1

/-- A minimal concrete profile. -/
def cexProfile : Profile := ⟨"", 0, "", [], []⟩

/-- Concrete window: an old cheap turn followed by a recent turn that
overflows the request budget. -/
def cexConv : List Entry := [["a", "b"], ["big", "big"]]

/-- A persisted document of odd length (unmatched trailing role). -/
def doc3 : List Msg := [⟨"user", "a"⟩, ⟨"assistant", "b"⟩, ⟨"user", "c"⟩]

/-- A store holding `doc3` under the key `"conv"`. -/
def store0 : Store := fun k => if k = "conv" then some doc3 else none

theorem sumCost_nil (tc : String → Nat) : sumCost tc [] = 0 := rfl

theorem sumCost_cons (tc : String → Nat) (item : Entry) (l : List Entry) :
    sumCost tc (item :: l) = entryCost tc item + sumCost tc l := by
  simp [sumCost]

theorem sumCost_reverse (tc : String → Nat) (l : List Entry) :
    sumCost tc l.reverse = sumCost tc l := by
  simp [sumCost, List.map_reverse, List.sum_reverse]

theorem wellFormed_reverse (l : List Entry) :
    wellFormed l.reverse = (wellFormed l).reverse := by
  simp [wellFormed, List.filter_reverse]

/-- Invariant of the `trim_conversation` loop: the result extends the
accumulator with the reverse of some budget-respecting prefix of the
well-formed entries still to scan. -/
theorem trim_loop_spec (tc : String → Nat) (max_tokens : Nat)
    (l : List Entry) : ∀ (total : Nat) (acc : List Entry),
    ∃ t : List Entry,
      trim_loop tc max_tokens l total acc = t.reverse ++ acc ∧
      t <+: wellFormed l ∧
      (t = [] ∨ total + sumCost tc t ≤ max_tokens) := by
  induction l with
  | nil =>
    intro total acc
    exact ⟨[], rfl, List.nil_prefix, Or.inl rfl⟩
  | cons item rest ih =>
    intro total acc
    by_cases hwf : (item.length == 2) = true
    · by_cases hover : total + entryCost tc item > max_tokens
      · refine ⟨[], ?_, List.nil_prefix, Or.inl rfl⟩
        simp [trim_loop, hwf, hover]
      · obtain ⟨t, h1, h2, h3⟩ := ih (total + entryCost tc item) (item :: acc)
        refine ⟨item :: t, ?_, ?_, Or.inr ?_⟩
        · rw [show trim_loop tc max_tokens (item :: rest) total acc =
              trim_loop tc max_tokens rest (total + entryCost tc item)
                (item :: acc) by simp [trim_loop, hwf, hover]]
          rw [h1, List.reverse_cons, List.append_assoc]
          rfl
        · rw [show wellFormed (item :: rest) = item :: wellFormed rest by
              simp [wellFormed, List.filter_cons, hwf]]
          exact List.cons_prefix_cons.mpr ⟨rfl, h2⟩
        · rw [sumCost_cons]
          rcases h3 with h | h
          · subst h
            rw [sumCost_nil]
            omega
          · omega
    · obtain ⟨t, h1, h2, h3⟩ := ih total acc
      refine ⟨t, ?_, ?_, h3⟩
      · simpa [trim_loop, hwf] using h1
      · rw [show wellFormed (item :: rest) = wellFormed rest by
            simp [wellFormed, List.filter_cons, hwf]]
        exact h2

/-- C1: for every history `H` (possibly containing malformed entries) and
every budget `B`, `trim_conversation H B` is a contiguous suffix of the
well-formed-filtered `H`, and the total per-turn token cost of the result
is at most `B`. -/
theorem trim_is_bounded_suffix (tc : String → Nat) (H : List Entry)
    (B : Nat) :
    trim_conversation tc H B <:+ wellFormed H ∧
    sumCost tc (trim_conversation tc H B) ≤ B := by
  obtain ⟨t, h1, h2, h3⟩ := trim_loop_spec tc B H.reverse 0 []
  rw [trim_conversation, h1, List.append_nil]
  constructor
  · rw [wellFormed_reverse] at h2
    have h4 : t.reverse <:+ ((wellFormed H).reverse).reverse :=
      List.reverse_suffix.mpr h2
    simpa using h4
  · rw [sumCost_reverse]
    rcases h3 with h | h
    · simp [h, sumCost_nil]
    · omega

/-- When the next well-formed entry (scanning from the most recent) already
overflows the budget on its own, the loop stops with an empty result. -/
theorem trim_loop_oversized (tc : String → Nat) (B : Nat) :
    ∀ (l : List Entry) (e : Entry), (wellFormed l).head? = some e →
      B < entryCost tc e → trim_loop tc B l 0 [] = [] := by
  intro l
  induction l with
  | nil =>
    intro e h _
    simp [wellFormed] at h
  | cons item rest ih =>
    intro e h hB
    by_cases hwf : (item.length == 2) = true
    · rw [show wellFormed (item :: rest) = item :: wellFormed rest by
          simp [wellFormed, List.filter_cons, hwf]] at h
      have he : item = e := by simpa using h
      subst he
      simp only [trim_loop, hwf, if_true]
      rw [if_pos (by omega : 0 + entryCost tc item > B)]
    · rw [show wellFormed (item :: rest) = wellFormed rest by
          simp [wellFormed, List.filter_cons, hwf]] at h
      have := ih e h hB
      simpa [trim_loop, hwf] using this

/-- C2: for every history whose most recent well-formed turn costs strictly
more than the budget `B`, `trim_conversation` returns the empty sequence —
the turn is dropped whole, never truncated. -/
theorem trim_oversized_last_turn_empty (tc : String → Nat)
    (H : List Entry) (B : Nat) (e : Entry)
    (h1 : (wellFormed H).getLast? = some e)
    (h2 : B < entryCost tc e) :
    trim_conversation tc H B = [] := by
  have hh : (wellFormed H.reverse).head? = some e := by
    rw [wellFormed_reverse, List.head?_reverse]
    exact h1
  rw [trim_conversation]
  exact trim_loop_oversized tc B H.reverse e hh h2

/-- Witness for C2: a single-turn history whose turn costs 10 against a
budget of 3 trims to the empty sequence. -/
theorem trim_oversized_last_turn_empty_witness :
    trim_conversation (fun _ => 5) [["a", "b"]] 3 = [] :=
  trim_oversized_last_turn_empty (fun _ => 5) [["a", "b"]] 3 ["a", "b"]
    (by decide) (by decide)

/-- The `prepare_api_messages` loop appends exactly the `(user, assistant)`
message pairs of the entries `pam_included` selects, and its final running
total is the initial total plus their summed cost. -/
theorem pam_loop_eq (tc : String → Nat) :
    ∀ (items : List Entry) (messages : List Msg) (tokens_used : Nat),
      pam_loop tc items messages tokens_used =
        (messages ++ (pam_included tc items tokens_used).flatMap turnMsgs,
         tokens_used + sumCost tc (pam_included tc items tokens_used)) := by
  intro items
  induction items with
  | nil =>
    intro messages tokens_used
    simp [pam_loop, pam_included, sumCost_nil]
  | cons item rest ih =>
    intro messages tokens_used
    by_cases hwf : (item.length == 2) = true
    · by_cases hover : tokens_used + entryCost tc item > MAX_TOKENS
      · simp [pam_loop, pam_included, hwf, hover, sumCost_nil]
      · rw [show pam_loop tc (item :: rest) messages tokens_used =
            pam_loop tc rest
              (messages ++
                [⟨"user", user_msg item⟩, ⟨"assistant", bot_msg item⟩])
              (tokens_used + entryCost tc item) by
            simp [pam_loop, hwf, hover]]
        rw [show pam_included tc (item :: rest) tokens_used =
            item :: pam_included tc rest (tokens_used + entryCost tc item) by
            simp [pam_included, hwf, hover]]
        rw [ih]
        rw [sumCost_cons]
        rw [Prod.mk.injEq]
        constructor
        · simp [turnMsgs, List.append_assoc]
        · omega
    · rw [show pam_loop tc (item :: rest) messages tokens_used =
          pam_loop tc rest messages tokens_used by simp [pam_loop, hwf]]
      rw [show pam_included tc (item :: rest) tokens_used =
          pam_included tc rest tokens_used by simp [pam_included, hwf]]
      exact ih messages tokens_used

/-- Closed form of `prepare_api_messages`: the system message, then the
message pairs of the included window entries, then the new user message
exactly when it fits strictly below `MAX_TOKENS` on top of the running
total (system cost plus included-turn costs). -/
theorem prepare_api_messages_eq (tc : String → Nat)
    (conversation : List Entry) (profile : Profile) (new_message : String) :
    prepare_api_messages tc conversation profile new_message =
      ⟨"system", system_content profile⟩ ::
        (included_turns tc conversation profile).flatMap turnMsgs ++
        (if tc new_message + (tc (system_content profile) +
            sumCost tc (included_turns tc conversation profile)) <
            MAX_TOKENS then
          [⟨"user", new_message⟩]
        else
          []) := by
  rw [prepare_api_messages]
  rw [pam_loop_eq]
  rw [included_turns, pam_window]
  by_cases hfits : tc new_message + (tc (system_content profile) +
      sumCost tc (pam_included tc
        (conversation.drop (conversation.length - MAX_HISTORY_ITEMS))
        (tc (system_content profile)))) < MAX_TOKENS
  · rw [if_pos hfits, if_pos hfits]
    simp
  · rw [if_neg hfits, if_neg hfits]
    simp

theorem pam_included_is_oldest_run (tc : String → Nat) :
    ∀ (items : List Entry) (tokens_used : Nat),
      pam_included tc items tokens_used <+: wellFormed items := by
  intro items
  induction items with
  | nil =>
    intro tokens_used
    exact List.nil_prefix
  | cons item rest ih =>
    intro tokens_used
    by_cases hwf : (item.length == 2) = true
    · by_cases hover : tokens_used + entryCost tc item > MAX_TOKENS
      · rw [show pam_included tc (item :: rest) tokens_used = [] by
            simp [pam_included, hwf, hover]]
        exact List.nil_prefix
      · rw [show pam_included tc (item :: rest) tokens_used =
            item :: pam_included tc rest (tokens_used + entryCost tc item) by
            simp [pam_included, hwf, hover]]
        rw [show wellFormed (item :: rest) = item :: wellFormed rest by
            simp [wellFormed, List.filter_cons, hwf]]
        exact List.cons_prefix_cons.mpr ⟨rfl, ih _⟩
    · rw [show pam_included tc (item :: rest) tokens_used =
          pam_included tc rest tokens_used by simp [pam_included, hwf]]
      rw [show wellFormed (item :: rest) = wellFormed rest by
          simp [wellFormed, List.filter_cons, hwf]]
      exact ih tokens_used

/-- C3 counterexample: with an oracle that prices the marker string `"big"`
above the request budget, `prepare_api_messages` keeps the *older* cheap
turn of the window and omits the *newer* oversized one, so the included
turns are not a suffix of the well-formed window — the claim that every
omitted turn is older than every included turn fails. -/
theorem omitted_older_than_included_cex :
    ¬ omitted_older_than_included tcCex cexConv cexProfile := by
  unfold omitted_older_than_included
  decide

/-- C3 amended: when the running budget check triggers during the window
loop of `prepare_api_messages`, the turns omitted are the remaining *newer*
turns of the window (iteration is oldest-first and stops at the first
overflow), so the included turns always form a contiguous *prefix* of the
well-formed-filtered window: every omitted well-formed turn of the window
is newer than every included turn. -/
theorem included_turns_form_initial_segment (tc : String → Nat)
    (conversation : List Entry) (profile : Profile) :
    included_turns tc conversation profile <+:
      wellFormed (pam_window conversation) :=
  pam_included_is_oldest_run tc (pam_window conversation)
    (tc (system_content profile))

/-- C4: `prepare_api_messages` appends the new user message exactly when
`count(new_message) + runningTotal < MAX_TOKENS` holds strictly, where the
running total is the system-message cost plus the costs of the included
history turns; when the check fails the message sequence is returned
normally without the new message. -/
theorem prepare_appends_new_message_iff_fits (tc : String → Nat)
    (conversation : List Entry) (profile : Profile) (new_message : String) :
    prepare_api_messages tc conversation profile new_message =
      ⟨"system", system_content profile⟩ ::
        (included_turns tc conversation profile).flatMap turnMsgs ++
        (if tc new_message + (tc (system_content profile) +
            sumCost tc (included_turns tc conversation profile)) <
            MAX_TOKENS then
          [⟨"user", new_message⟩]
        else
          []) :=
  prepare_api_messages_eq tc conversation profile new_message

theorem countP_system_turnMsgs (inc : List Entry) :
    ((inc.flatMap turnMsgs).countP (fun msg => msg.role == "system")) = 0 := by
  induction inc with
  | nil => rfl
  | cons item rest ih =>
    rw [List.flatMap_cons, List.countP_append, ih]
    simp [turnMsgs, List.countP_cons]

/-- C5: for every trimmed history, profile and new message, the sequence
returned by `prepare_api_messages` contains exactly one message whose role
is `"system"`, and that message is the first element. -/
theorem prepare_single_system_message_first (tc : String → Nat)
    (conversation : List Entry) (profile : Profile) (new_message : String) :
    ((prepare_api_messages tc conversation profile new_message).countP
        (fun msg => msg.role == "system")) = 1 ∧
    (prepare_api_messages tc conversation profile new_message).head? =
      some ⟨"system", system_content profile⟩ := by
  rw [prepare_api_messages_eq]
  constructor
  · rw [show (⟨"system", system_content profile⟩ ::
        (included_turns tc conversation profile).flatMap turnMsgs ++ _ :
        List Msg) = ⟨"system", system_content profile⟩ ::
        ((included_turns tc conversation profile).flatMap turnMsgs ++ _)
        from rfl]
    rw [List.countP_cons, List.countP_append,
      countP_system_turnMsgs]
    by_cases hfits : tc new_message + (tc (system_content profile) +
        sumCost tc (included_turns tc conversation profile)) < MAX_TOKENS
    · rw [if_pos hfits]
      simp [List.countP_cons]
    · rw [if_neg hfits]
      simp
  · rfl

/-- C6 counterexample: the odd-length stored record `doc3` is *not* dropped
by `load_conversation` — its first two messages are loaded as one turn, a
partially loaded prefix, contradicting the claim that such a record yields
the empty sequence. -/
theorem odd_record_partially_loaded_cex :
    load_conversation store0 "conv" = [["a", "b"]] ∧
    load_conversation store0 "conv" ≠ ([] : List Entry) := by
  constructor <;> decide

theorem convert_from_odd_drops_trailing : ∀ (doc : List Msg),
    doc.length % 2 = 1 →
    convert_from_openai_format doc =
      convert_from_openai_format doc.dropLast
  | [] => by
    intro h
    simp at h
  | [m] => by
    intro _
    rfl
  | m1 :: m2 :: rest => by
    intro h
    have hr : rest.length % 2 = 1 := by
      simp [List.length_cons] at h
      omega
    have hne : rest ≠ [] := by
      intro hh
      rw [hh] at hr
      simp at hr
    rw [List.dropLast_cons₂, List.dropLast_cons_of_ne_nil hne]
    simp only [convert_from_openai_format]
    rw [convert_from_odd_drops_trailing rest hr]

/-- C6 amended: loading a persisted record whose `{role, content}` array has
odd length drops only the unmatched trailing element — the result is the
positional pairing of the longest even-length prefix (a partial load of the
complete pairs), not the empty sequence. -/
theorem odd_record_loads_even_prefix (store : Store) (key : String)
    (doc : List Msg) (h1 : store key = some doc)
    (h2 : doc.length % 2 = 1) :
    load_conversation store key =
      convert_from_openai_format doc.dropLast := by
  rw [load_conversation, h1]
  exact convert_from_odd_drops_trailing doc h2

/-- Witness for the amended C6: loading the three-element record `doc3`
returns the pairing of its first two elements. -/
theorem odd_record_loads_even_prefix_witness :
    load_conversation store0 "conv" =
      convert_from_openai_format doc3.dropLast :=
  odd_record_loads_even_prefix store0 "conv" doc3 (by decide) (by decide)

theorem load_store_put (store : Store) (key : String) (doc : List Msg) :
    load_conversation (store_put store key doc) key =
      convert_from_openai_format doc := by
  simp [load_conversation, store_put]

theorem entry_eta : ∀ (item : Entry), item.length = 2 →
    [user_msg item, bot_msg item] = item
  | [_, _], _ => rfl
  | [], h => by simp at h
  | [_], h => by simp at h
  | _ :: _ :: _ :: _, h => by simp at h

theorem convert_round_trip : ∀ (h : List Entry),
    (∀ e ∈ h, e.length = 2) →
    convert_from_openai_format (convert_to_openai_format h) = h
  | [] => by
    intro _
    rfl
  | item :: rest => by
    intro hwf
    have h2 : item.length = 2 := hwf item (by simp)
    have hb : (item.length == 2) = true := by simp [h2]
    rw [show convert_to_openai_format (item :: rest) =
        ⟨"user", user_msg item⟩ :: ⟨"assistant", bot_msg item⟩ ::
          convert_to_openai_format rest by
        simp [convert_to_openai_format, hb]]
    simp only [convert_from_openai_format]
    rw [convert_round_trip rest (fun e he => hwf e (by simp [he]))]
    rw [show ([user_msg item, bot_msg item] : Entry) = item from
        entry_eta item h2]

/-- C7: round-trip persistence — saving a sequence of well-formed turns and
loading it back at the key `save_conversation` returns yields the saved
sequence, the underlying store being unmodified in between. -/
theorem save_load_round_trip (store : Store) (conversation : List Entry)
    (filename fresh_name : String)
    (h : ∀ e ∈ conversation, e.length = 2) :
    load_conversation
        (save_conversation store conversation filename fresh_name).1
        (save_conversation store conversation filename fresh_name).2 =
      conversation := by
  have h1 : load_conversation
      (save_conversation store conversation filename fresh_name).1
      (save_conversation store conversation filename fresh_name).2 =
      convert_from_openai_format (convert_to_openai_format conversation) :=
    load_store_put store (if filename = "" then fresh_name else filename)
      (convert_to_openai_format conversation)
  rw [h1]
  exact convert_round_trip conversation h

/-- Witness for C7: one well-formed turn survives the save/load
round-trip on a fresh key. -/
theorem save_load_round_trip_witness :
    load_conversation
        (save_conversation (fun _ => none) [["hi", "hello"]] "" "k").1
        (save_conversation (fun _ => none) [["hi", "hello"]] "" "k").2 =
      [["hi", "hello"]] :=
  save_load_round_trip (fun _ => none) [["hi", "hello"]] "" "k" (by decide)

theorem convert_from_all_wf : ∀ (doc : List Msg),
    ∀ e ∈ convert_from_openai_format doc, e.length = 2
  | [] => by
    intro e he
    simp [convert_from_openai_format] at he
  | [m] => by
    intro e he
    simp [convert_from_openai_format] at he
  | m1 :: m2 :: rest => by
    intro e he
    simp only [convert_from_openai_format, List.mem_cons] at he
    rcases he with h | h
    · subst h
      rfl
    · exact convert_from_all_wf rest e h

theorem convert_from_getElem : ∀ (doc : List Msg) (i : Nat),
    (convert_from_openai_format doc)[i]? =
      match doc[2 * i]?, doc[2 * i + 1]? with
      | some u, some b => some [u.content, b.content]
      | _, _ => none
  | [], i => by
    simp [convert_from_openai_format]
  | [m], i => by
    cases i with
    | zero => rfl
    | succ n =>
      rw [show 2 * (n + 1) = 0 + 1 + (2 * n + 1) by omega]
      rw [List.getElem?_cons_succ]
      simp [convert_from_openai_format]
  | m1 :: m2 :: rest, i => by
    cases i with
    | zero => simp [convert_from_openai_format]
    | succ n =>
      have e1 : (m1 :: m2 :: rest)[2 * (n + 1)]? = rest[2 * n]? := by
        rw [show 2 * (n + 1) = 2 * n + 1 + 1 by omega]
        rw [List.getElem?_cons_succ, List.getElem?_cons_succ]
      have e2 : (m1 :: m2 :: rest)[2 * (n + 1) + 1]? = rest[2 * n + 1]? := by
        rw [show 2 * (n + 1) + 1 = 2 * n + 1 + 1 + 1 by omega]
        rw [List.getElem?_cons_succ, List.getElem?_cons_succ]
      rw [e1, e2]
      rw [show convert_from_openai_format (m1 :: m2 :: rest) =
          [m1.content, m2.content] :: convert_from_openai_format rest
          from rfl]
      rw [List.getElem?_cons_succ]
      exact convert_from_getElem rest n

/-- C10: every element a stored `{role, content}` document loads to is a
well-formed two-field turn, and the pairing is purely positional — element
`i` of the result is the pair of the contents at document positions `2 i`
and `2 i + 1` (the stored role tags are never consulted), so no loaded turn
can fail the two-field check downstream. -/
theorem load_turns_positional_and_wf (store : Store) (key : String)
    (doc : List Msg) (i : Nat) (h : store key = some doc) :
    (∀ e ∈ load_conversation store key, e.length = 2) ∧
    (load_conversation store key)[i]? =
      match doc[2 * i]?, doc[2 * i + 1]? with
      | some u, some b => some [u.content, b.content]
      | _, _ => none := by
  rw [load_conversation, h]
  exact ⟨convert_from_all_wf doc, convert_from_getElem doc i⟩

/-- Witness for C10: loading the record `doc3` yields only two-field turns
and pairs positions `0` and `1` into the first turn. -/
theorem load_turns_positional_and_wf_witness :
    (∀ e ∈ load_conversation store0 "conv", e.length = 2) ∧
    (load_conversation store0 "conv")[0]? = some [("a" : String), "b"] := by
  have h := load_turns_positional_and_wf store0 "conv" doc3 0 (by decide)
  refine ⟨h.1, ?_⟩
  rw [h.2]
  decide

/-- C8: if an exception is raised during the merging phase
(`load_recent_conversations`) or the streaming phase, `respond` ends by
yielding the *unmerged* session history passed in, extended with the turn
`(message, "发生错误: " ++ e)`, together with the unchanged session key. -/
theorem respond_error_appends_to_session (tc : String → Nat)
    (message : String) (chat_history : List Entry) (current_file : String)
    (store : Store) (recent_chats : Except String (List Entry))
    (chunks : List String) (stream_error : Option String)
    (fresh_name : String) (e : String)
    (hmsg : isBlank message = false)
    (herr : recent_chats = Except.error e ∨
      ((∃ rc, recent_chats = Except.ok rc) ∧ stream_error = some e)) :
    (respond tc message chat_history current_file store recent_chats chunks
        stream_error fresh_name).yields.getLast? =
      some (chat_history ++ [[message, "发生错误: " ++ e]], current_file) := by
  rcases herr with h | ⟨⟨rc, hrc⟩, hse⟩
  · subst h
    simp [respond, hmsg]
  · subst hrc
    subst hse
    simp [respond, hmsg]

/-- Witness for C8: a merging-phase exception `"boom"` is recorded as the
assistant side of the final yielded turn, with the key unchanged. -/
theorem respond_error_appends_to_session_witness :
    (respond (fun _ => 0) "hi" [] "" (fun _ => none) (Except.error "boom")
        [] none "k").yields.getLast? =
      some ([["hi", "发生错误: boom"]], "") :=
  respond_error_appends_to_session (fun _ => 0) "hi" [] "" (fun _ => none)
    (Except.error "boom") [] none "k" "boom" (by decide) (Or.inl rfl)

/-- C9: submitting an empty or whitespace-only message is a no-op —
`respond` yields the input history and session key unchanged, the store is
untouched, and the streaming phase is never reached. -/
theorem respond_blank_is_noop (tc : String → Nat) (message : String)
    (chat_history : List Entry) (current_file : String) (store : Store)
    (recent_chats : Except String (List Entry)) (chunks : List String)
    (stream_error : Option String) (fresh_name : String)
    (h : isBlank message = true) :
    respond tc message chat_history current_file store recent_chats chunks
        stream_error fresh_name =
      ⟨[(chat_history, current_file)], store, false⟩ := by
  simp [respond, h]

/-- Witness for C9: a single-space message leaves history, key and store
unchanged and never reaches the network. -/
theorem respond_blank_is_noop_witness :
    respond (fun _ => 0) " " [["a", "b"]] "f" (fun _ => none)
        (Except.ok []) [] none "k" =
      ⟨[([["a", "b"]], "f")], (fun _ => none), false⟩ :=
  respond_blank_is_noop (fun _ => 0) " " [["a", "b"]] "f" (fun _ => none)
    (Except.ok []) [] none "k" (by decide)
